import Mathlib

/-!
# Marketplace context of the NFT rental client

A shallow embedding of `client/src/contexts/MarketplaceContext/index.js`:
the two reconcilers (`updateListings`, `updateOwnedTokens`) and the four
actions (`mint`, `list`, `unlist`, `rent`).

Conventions of the embedding.

* JavaScript numbers are exact: integers are `Int`, `Date.now() / 1000` is the
  rational `nowMs / 1000`, and `NaN` is `none`.
* Every external collaborator (contract reads, transaction sends, the indexing
  service, the metadata gateway, the clock) is a field of `World`; a call that
  rejects answers `none`.
* An asynchronous function is a `Run`: the external calls it issued and either
  the value it resolved with or the error it rejected with.
* React state is passed explicitly: a reconciler maps the `State` its closure
  captured to the `State` after its setters ran.
-/

namespace Marketplace

/-! ## Data model -/

abbrev Address := String

abbrev TokenId := String

abbrev Json := String

/-- One element of the array `getAllListings()` resolves with; web3 delivers every
`uint256` field as a string. -/
structure RawListing where
  nftContract : Address
  pricePerDay : String
  startDateUNIX : String
  endDateUNIX : String
  expires : String
  tokenId : TokenId
  owner : Address
  user : Address
  deriving DecidableEq, Repr

/-- The object `transformedData` (lines 56-63); `none` is `NaN`. -/
structure TransformedData where
  pricePerDay : Option Int
  startDateUnix : Option Int
  endDateUnix : Option Int
  duration : Option Int
  expires : Option Int
  user : Address
  deriving DecidableEq, Repr

/-- The object `listingExtended` once the raw keys have been deleted (lines 64-78). -/
structure ListingExtended where
  tokenId : TokenId
  owner : Address
  pricePerDay : Option Int
  startDateUnix : Option Int
  endDateUnix : Option Int
  duration : Option Int
  expires : Option Int
  user : Address
  nftContractAddress : Address
  tokenUri : String
  tokenUriRes : Option Json
  isOwner : Bool
  isUser : Bool
  deriving DecidableEq, Repr

/-- The object `listingsExtendedTransformed`: contract address, then token id, then
the reduced record, kept as association lists with unique keys. -/
abbrev ListingIndex := List (Address × List (TokenId × TransformedData))

/-- An element of `ownedTokens`; `tokenUri` is not set on the indexed path. -/
structure OwnedToken where
  nftContractAddress : Address
  tokenId : TokenId
  tokenUri : Option String
  tokenUriRes : Option Json
  listingData : Option TransformedData
  deriving DecidableEq, Repr

/-- The three `useState` cells; `none` is the initial `null`. -/
structure State where
  listings : Option (List ListingExtended)
  listingsTransformed : Option ListingIndex
  ownedTokens : Option (List OwnedToken)
  deriving DecidableEq, Repr

/-- What `useEth().state` provides: each part may still be null. -/
structure Eth where
  web3 : Bool
  artifacts : Bool
  accounts : Option (List Address)
  marketplaceContract : Bool
  rentableNftContract : Option Address

/-! ## External calls -/

/-- The `value` option of a `send`. -/
inductive SendValue
  | unset
  | str (s : String)
  | num (n : Option Int)
  deriving DecidableEq, Repr

/-- The contract method a transaction invokes, with its arguments. -/
inductive Method
  | mint (tokenUri : String)
  | listNFT (nftContractAddress : Address) (tokenId : TokenId) (price : Int) (start stop : Int)
  | unlistNFT (nftContractAddress : Address) (tokenId : TokenId)
  | rentNFT (nftContractAddress : Address) (tokenId : TokenId) (expires : Int)
  deriving DecidableEq, Repr

/-- A submitted transaction: method, the `from` option and the `value` option. -/
structure Send where
  method : Method
  sender : Option Address
  value : SendValue
  deriving DecidableEq, Repr

/-- An external call, as recorded in the trace of a run. -/
inductive Call
  | getAllListings
  | tokenURI (nftContract : Address) (tokenId : TokenId)
  | fetch (uri : String)
  | getOwnedRentableNfts (account : Option Address)
  | getPastEvents (nftContract : Address) (recipient : Option Address)
  | getListingFee
  | userExpires (nftContract : Address) (tokenId : TokenId)
  | send (tx : Send)
  deriving DecidableEq, Repr

/-- An element of the array the indexing service resolves with. -/
structure IndexedNft where
  contract : Address
  tokenId : TokenId
  metadata : Option Json

/-- A `Transfer` event; only `returnValues.tokenId` is read. -/
structure MintEvent where
  tokenId : TokenId

/-- The receipt a `send` resolves with; only `status` is read. -/
structure Tx where
  status : Bool

/-- The answers of the external collaborators during one run. `fetchJson k uri` is the
outcome of the metadata fetch issued by item `k` of a fan-out; `settleOrder` is the
order in which the per-listing tasks of one `Promise.all` reach their index write. -/
structure World where
  nowMs : Nat
  getIpfsGatewayUri : String → String
  getAllListings : Option (List RawListing)
  tokenURI : Address → TokenId → Option String
  fetchJson : Nat → String → Option Json
  settleOrder : List RawListing → List RawListing
  infuraActive : Bool
  getOwnedRentableNfts : Option Address → Option (List IndexedNft)
  getPastEvents : Address → Option Address → Option (List MintEvent)
  getListingFee : Option String
  userExpires : Address → TokenId → Option String
  send : Send → Option Tx

/-- How an asynchronous function rejects: a `TypeError` raised by the client code
itself, or the rejection of an external call. -/
inductive Err
  | typeError
  | rejected
  deriving DecidableEq, Repr

/-- The outcome of an asynchronous function. -/
structure Run (α : Type) where
  trace : List Call
  result : Except Err α

namespace Run

def pure {α : Type} (a : α) : Run α := ⟨[], .ok a⟩

def throw {α : Type} (e : Err) : Run α := ⟨[], .error e⟩

def bind {α β : Type} (m : Run α) (f : α → Run β) : Run β :=
  match m.result with
  | .ok a => ⟨m.trace ++ (f a).trace, (f a).result⟩
  | .error e => ⟨m.trace, .error e⟩

instance : Monad Run where
  pure := Run.pure
  bind := Run.bind

/-- An awaited external call `c` whose answer is `r`. -/
def call {α : Type} (c : Call) (r : Option α) : Run α :=
  ⟨[c], match r with
        | some a => .ok a
        | none => .error .rejected⟩

/-- The results of a list of settled tasks, as `Promise.all` delivers them: all of
them in order, or a rejection. -/
def collect {α : Type} : List (Run α) → Except Err (List α)
  | [] => .ok []
  | t :: ts =>
    match t.result, collect ts with
    | .ok a, .ok as => .ok (a :: as)
    | .error e, _ => .error e
    | .ok _, .error e => .error e

/-- Fan-out then join (`Promise.all(xs.map(async ...))`): every task is started, so
the calls of all of them are issued. -/
def all {α : Type} (tasks : List (Run α)) : Run (List α) :=
  ⟨(tasks.map Run.trace).flatten, collect tasks⟩

/-- The transaction of a call, when the call is a `send`. -/
def sendOf : Call → Option Send
  | .send tx => some tx
  | _ => none

/-- The transactions submitted during a run. -/
def sends {α : Type} (r : Run α) : List Send :=
  r.trace.filterMap sendOf

end Run

/-! ## `parseInt` -/

/-- The value of `c` as a digit of the given radix. -/
def digitValue (radix : Nat) (c : Char) : Option Nat :=
  let v : Option Nat :=
    if 48 ≤ c.toNat ∧ c.toNat ≤ 57 then some (c.toNat - 48)
    else if 97 ≤ c.toNat ∧ c.toNat ≤ 122 then some (c.toNat - 87)
    else if 65 ≤ c.toNat ∧ c.toNat ≤ 90 then some (c.toNat - 55)
    else none
  match v with
  | some d => if d < radix then some d else none
  | none => none

/-- The longest prefix of radix digits of `cs`, read most significant first: the
accumulated value and whether at least one digit was read. -/
def readDigits (radix : Nat) : List Char → Nat → Bool → Nat × Bool
  | [], acc, seen => (acc, seen)
  | c :: cs, acc, seen =>
    match digitValue radix c with
    | some d => readDigits radix cs (acc * radix + d) true
    | none => (acc, seen)

/-- Whether `c` is white space or a line terminator that `parseInt` skips: tab, line feed,
vertical tab, form feed, carriage return, the space separators, line and paragraph
separator, byte order mark. -/
def isStrWhiteSpace (c : Char) : Bool :=
  c.toNat = 9 ∨ c.toNat = 10 ∨ c.toNat = 11 ∨ c.toNat = 12 ∨ c.toNat = 13 ∨ c.toNat = 32
    ∨ c.toNat = 160 ∨ c.toNat = 5760 ∨ (8192 ≤ c.toNat ∧ c.toNat ≤ 8202) ∨ c.toNat = 8232
    ∨ c.toNat = 8233 ∨ c.toNat = 8239 ∨ c.toNat = 8287 ∨ c.toNat = 12288 ∨ c.toNat = 65279

def magnitude (cs : List Char) : Option Nat :=
  let r : Nat × Bool :=
    match cs with
    | '0' :: 'x' :: rest => readDigits 16 rest 0 false
    | '0' :: 'X' :: rest => readDigits 16 rest 0 false
    | _ => readDigits 10 cs 0 false
  if r.2 then some r.1 else none

/-- The builtin `parseInt(s)` without a radix argument; `none` is `NaN`. -/
def parseInt (s : String) : Option Int :=
  match s.data.dropWhile isStrWhiteSpace with
  | '-' :: cs => (magnitude cs).map fun n => -(n : Int)
  | '+' :: cs => (magnitude cs).map fun n => (n : Int)
  | cs => (magnitude cs).map fun n => (n : Int)

/-! ## Listing reconciler -/

/-- Lines 49-63: parse the encoded fields and derive `duration`. -/
def transform (listing : RawListing) : TransformedData :=
  let pricePerDay := parseInt listing.pricePerDay
  let startDateUnix := parseInt listing.startDateUNIX
  let endDateUnix := parseInt listing.endDateUNIX
  let duration := endDateUnix.bind fun e => startDateUnix.map fun s => e - s
  let expires := parseInt listing.expires
  { pricePerDay, startDateUnix, endDateUnix, duration, expires, user := listing.user }

/-- The lookup `index[nftContractAddress]?.[tokenId]`. -/
def lookup (index : ListingIndex) (nftContractAddress : Address) (tokenId : TokenId) :
    Option TransformedData :=
  (index.lookup nftContractAddress).bind fun inner => inner.lookup tokenId

/-- The assignment `obj[key] = value` on an association list with unique keys. -/
def assign {β : Type} (key : String) (value : β) : List (String × β) → List (String × β)
  | [] => [(key, value)]
  | (k, v) :: rest => if k = key then (k, value) :: rest else (k, v) :: assign key value rest

/-- Lines 80-84: the index write of one listing. -/
def indexPut (index : ListingIndex) (listing : RawListing) : ListingIndex :=
  match index.lookup listing.nftContract with
  | some inner => assign listing.nftContract (assign listing.tokenId (transform listing) inner) index
  | none => assign listing.nftContract [(listing.tokenId, transform listing)] index

/-- The number of (contract address, token id) entries of an index. -/
def entryCount (index : ListingIndex) : Nat :=
  (index.map fun p => p.2.length).sum

/-- The expression `accounts[0]`: a `TypeError` when `accounts` is null, `undefined`
(`none`) when it is empty. -/
def accounts0 (eth : Eth) : Run (Option Address) :=
  match eth.accounts with
  | some accounts => Run.pure accounts.head?
  | none => Run.throw .typeError

/-- The expression `new web3.eth.Contract(artifacts.RentableNft.abi, _)`. -/
def newContract (eth : Eth) : Run Unit :=
  if eth.web3 ∧ eth.artifacts then Run.pure () else Run.throw .typeError

/-- Lines 42-47 and 138-143: the metadata fetch of item `k`; a failure is caught. -/
def fetchMetadata (w : World) (k : Nat) (tokenUri : String) : Run (Option Json) :=
  ⟨[.fetch (w.getIpfsGatewayUri tokenUri)], .ok (w.fetchJson k (w.getIpfsGatewayUri tokenUri))⟩

/-- Lines 49-78: the record `listingExtended` of a listing, given its metadata URI, the
outcome of the metadata fetch and the value of `accounts[0]`. -/
def listingExtended (listing : RawListing) (tokenUri : String) (tokenUriRes : Option Json)
    (account : Option Address) : ListingExtended :=
  let t := transform listing
  { tokenId := listing.tokenId
    owner := listing.owner
    pricePerDay := t.pricePerDay
    startDateUnix := t.startDateUnix
    endDateUnix := t.endDateUnix
    duration := t.duration
    expires := t.expires
    user := t.user
    nftContractAddress := listing.nftContract
    tokenUri := tokenUri
    tokenUriRes := tokenUriRes
    isOwner := decide (some listing.owner = account)
    isUser := decide (some listing.user = account) }

/-- Lines 27-87, the index write apart: the task of the listing at position `k`. -/
def listingTask (eth : Eth) (w : World) (k : Nat) (listing : RawListing) : Run ListingExtended := do
  newContract eth
  let tokenUri ← Run.call (.tokenURI listing.nftContract listing.tokenId)
    (w.tokenURI listing.nftContract listing.tokenId)
  let tokenUriRes ← fetchMetadata w k tokenUri
  let account ← accounts0 eth
  pure (listingExtended listing tokenUri tokenUriRes account)

/-- The tasks `res.map(async listing => ...)`, the first one at position `k`. -/
def listingTasks (eth : Eth) (w : World) : Nat → List RawListing → List (Run ListingExtended)
  | _, [] => []
  | k, listing :: rest => listingTask eth w k listing :: listingTasks eth w (k + 1) rest

/-- Lines 19-93. -/
def updateListings (eth : Eth) (w : World) (s : State) : Run State :=
  if eth.marketplaceContract then do
    let res ← Run.call .getAllListings w.getAllListings
    let listingsExtended ← Run.all (listingTasks eth w 0 res)
    let listingsExtendedTransformed := (w.settleOrder res).foldl indexPut []
    pure { s with
      listings := some listingsExtended
      listingsTransformed := some listingsExtendedTransformed }
  else pure s

/-! ## Ownership reconciler -/

/-- Lines 135-151: the task of the mint event at position `k`. -/
def eventTask (w : World) (nftContractAddress : Address) (index : ListingIndex) (k : Nat)
    (mintEvent : MintEvent) : Run OwnedToken := do
  let tokenUri ← Run.call (.tokenURI nftContractAddress mintEvent.tokenId)
    (w.tokenURI nftContractAddress mintEvent.tokenId)
  let tokenUriRes ← fetchMetadata w k tokenUri
  pure {
    nftContractAddress := nftContractAddress
    tokenId := mintEvent.tokenId
    tokenUri := some tokenUri
    tokenUriRes := tokenUriRes
    listingData := lookup index nftContractAddress mintEvent.tokenId }

def eventTasks (w : World) (nftContractAddress : Address) (index : ListingIndex) :
    Nat → List MintEvent → List (Run OwnedToken)
  | _, [] => []
  | k, ev :: rest =>
    eventTask w nftContractAddress index k ev :: eventTasks w nftContractAddress index (k + 1) rest

/-- Lines 109-116. -/
def indexedToken (index : ListingIndex) (ele : IndexedNft) : OwnedToken :=
  { nftContractAddress := ele.contract
    tokenId := ele.tokenId
    tokenUri := none
    tokenUriRes := ele.metadata
    listingData := lookup index ele.contract ele.tokenId }

/-- Lines 102-162. -/
def updateOwnedTokens (eth : Eth) (w : World) (s : State) : Run State :=
  if w.infuraActive then
    match eth.accounts, s.listingsTransformed with
    | some accounts, some listingsTransformed => do
      let res ← Run.call (.getOwnedRentableNfts accounts.head?)
        (w.getOwnedRentableNfts accounts.head?)
      let tokens := res.map (indexedToken listingsTransformed)
      pure { s with ownedTokens := some tokens }
    | _, _ => pure s
  else
    match eth.rentableNftContract, s.listingsTransformed with
    | some nftContractAddress, some listingsTransformed => do
      let recipient ← accounts0 eth
      let mintEvents ← Run.call (.getPastEvents nftContractAddress recipient)
        (w.getPastEvents nftContractAddress recipient)
      let tokens ← Run.all (eventTasks w nftContractAddress listingsTransformed 0 mintEvents)
      pure { s with ownedTokens := some tokens }
    | _, _ => pure s

/-! ## Action dispatcher -/

/-- The expression `Date.now() / 1000`. -/
def nowSeconds (w : World) : ℚ := (w.nowMs : ℚ) / 1000

/-- The read `listingsTransformed[nftContractAddress][tokenId]` followed by the
destructuring of its result: a `TypeError` when any of the three is missing. -/
def listingEntry (s : State) (nftContractAddress : Address) (tokenId : TokenId) :
    Run TransformedData :=
  match s.listingsTransformed with
  | some listingsTransformed =>
    match lookup listingsTransformed nftContractAddress tokenId with
    | some t => Run.pure t
    | none => Run.throw .typeError
  | none => Run.throw .typeError

/-- The member access `marketplaceContract.methods`. -/
def marketplaceMethods (eth : Eth) : Run Unit :=
  if eth.marketplaceContract then Run.pure () else Run.throw .typeError

/-- Lines 165-168. The refresh reads the world `w'` the transaction left behind. -/
def mint (eth : Eth) (w w' : World) (s : State) (tokenUri : String) : Run State :=
  match eth.rentableNftContract with
  | none => Run.throw .typeError
  | some _ => do
    let account ← accounts0 eth
    let tx ← Run.call (.send ⟨.mint tokenUri, account, .unset⟩)
      (w.send ⟨.mint tokenUri, account, .unset⟩)
    if tx.status then updateOwnedTokens eth w' s else pure s

/-- Lines 170-187. -/
def list (eth : Eth) (w w' : World) (s : State) (nftContractAddress : Address)
    (tokenId : TokenId) (price : Int) (duration : Int) : Run State := do
  let buffer : Int := 30
  let start : Int := ⌈nowSeconds w⌉ + buffer
  let stop : Int := start + duration
  marketplaceMethods eth
  let listingFee ← Run.call .getListingFee w.getListingFee
  let account ← accounts0 eth
  let tx ← Run.call
    (.send ⟨.listNFT nftContractAddress tokenId price start stop, account, .str listingFee⟩)
    (w.send ⟨.listNFT nftContractAddress tokenId price start stop, account, .str listingFee⟩)
  if tx.status then updateListings eth w' s else pure s

/-- Line 195: the refund, for an expiry and a price that are numbers. -/
def unlistRefund (nowMs : Nat) (expires pricePerDay : Int) : Int :=
  ⌈((expires : ℚ) - (nowMs : ℚ) / 1000) / 60 / 60 / 24 + 1⌉ * pricePerDay

/-- Line 196: the `value` option, `Math.max(0, refund)`; `NaN` when the expiry or the
price is. -/
def unlistValue (nowMs : Nat) (expires pricePerDay : Option Int) : Option Int :=
  expires.bind fun e => pricePerDay.map fun p => max 0 (unlistRefund nowMs e p)

/-- Lines 189-199. -/
def unlist (eth : Eth) (w w' : World) (s : State) (nftContractAddress : Address)
    (tokenId : TokenId) : Run State := do
  newContract eth
  let expiresStr ← Run.call (.userExpires nftContractAddress tokenId)
    (w.userExpires nftContractAddress tokenId)
  let expires := parseInt expiresStr
  let t ← listingEntry s nftContractAddress tokenId
  let value := unlistValue w.nowMs expires t.pricePerDay
  let account ← accounts0 eth
  marketplaceMethods eth
  let tx ← Run.call (.send ⟨.unlistNFT nftContractAddress tokenId, account, .num value⟩)
    (w.send ⟨.unlistNFT nftContractAddress tokenId, account, .num value⟩)
  if tx.status then updateListings eth w' s else pure s

/-- Lines 203-204: the expiry passed to `rentNFT`. -/
def rentExpires (nowMs : Nat) (duration : Int) : Int :=
  let now : Int := ⌈(nowMs : ℚ) / 1000⌉
  now + duration

/-- Lines 203-206: the fee, for a price that is a number. -/
def rentFee (nowMs : Nat) (duration pricePerDay : Int) : Int :=
  let now : Int := ⌈(nowMs : ℚ) / 1000⌉
  let expires : Int := now + duration
  let numDays : ℚ := (((expires - now : Int) : ℚ)) / 60 / 60 / 24 + 1
  ⌈numDays * (pricePerDay : ℚ)⌉

/-- Lines 201-210. -/
def rent (eth : Eth) (w w' : World) (s : State) (nftContractAddress : Address)
    (tokenId : TokenId) (duration : Int) : Run State := do
  let t ← listingEntry s nftContractAddress tokenId
  let expires := rentExpires w.nowMs duration
  let fee := t.pricePerDay.map (rentFee w.nowMs duration)
  let account ← accounts0 eth
  marketplaceMethods eth
  let tx ← Run.call (.send ⟨.rentNFT nftContractAddress tokenId expires, account, .num fee⟩)
    (w.send ⟨.rentNFT nftContractAddress tokenId expires, account, .num fee⟩)
  if tx.status then updateListings eth w' s else pure s

/-! ## Vocabulary of the statements -/

/-- The tail every action ends with: submit `tx`, then refresh if and only if the
receipt reports success. -/
def dispatch (w : World) (tx : Send) (refresh : Run State) (s : State) : Run State :=
  Run.bind (Run.call (.send tx) (w.send tx)) fun receipt =>
    if receipt.status then refresh else Run.pure s

/-- The transaction `mint` submits. -/
def mintTx (accounts : List Address) (tokenUri : String) : Send :=
  ⟨.mint tokenUri, accounts.head?, .unset⟩

/-- The transaction `list` submits. -/
def listTx (nowMs : Nat) (accounts : List Address) (nftContractAddress : Address)
    (tokenId : TokenId) (price duration : Int) (listingFee : String) : Send :=
  ⟨.listNFT nftContractAddress tokenId price (⌈(nowMs : ℚ) / 1000⌉ + 30)
      (⌈(nowMs : ℚ) / 1000⌉ + 30 + duration), accounts.head?, .str listingFee⟩

/-- The transaction `unlist` submits. -/
def unlistTx (nowMs : Nat) (accounts : List Address) (nftContractAddress : Address)
    (tokenId : TokenId) (expires pricePerDay : Option Int) : Send :=
  ⟨.unlistNFT nftContractAddress tokenId, accounts.head?,
    .num (unlistValue nowMs expires pricePerDay)⟩

/-- The transaction `rent` submits. -/
def rentTx (nowMs : Nat) (accounts : List Address) (nftContractAddress : Address)
    (tokenId : TokenId) (duration : Int) (pricePerDay : Option Int) : Send :=
  ⟨.rentNFT nftContractAddress tokenId (rentExpires nowMs duration), accounts.head?,
    .num (pricePerDay.map (rentFee nowMs duration))⟩

/-! ## The refund and the fee as the specification words them -/

/-- The refund as the specification words it: `ceil((expires - now)/86400 + 1)` days at
`pricePerDay`, clamped to a minimum of zero. -/
def refundSpec (now : ℚ) (expires pricePerDay : Int) : Int :=
  max 0 (⌈((expires : ℚ) - now) / 86400 + 1⌉ * pricePerDay)

def demoEth : Eth :=
  { web3 := true
    artifacts := true
    accounts := some ["0xA11CE"]
    marketplaceContract := true
    rentableNftContract := some "0xNFT" }

def demoListing : RawListing :=
  { nftContract := "0xNFT"
    pricePerDay := "100"
    startDateUNIX := "1700000030"
    endDateUNIX := "1700086430"
    expires := "1699996400"
    tokenId := "5"
    owner := "0xA11CE"
    user := "0xB0B" }

/-- A world whose clock shows 1700000000 s and in which the renter of token 5 lost
their rights one hour ago. -/
def demoWorld : World :=
  { nowMs := 1700000000000
    getIpfsGatewayUri := fun uri => uri
    getAllListings := some [demoListing]
    tokenURI := fun _ _ => some "ipfs://meta"
    fetchJson := fun _ _ => some "doc"
    settleOrder := fun res => res
    infuraActive := false
    getOwnedRentableNfts := fun _ => some []
    getPastEvents := fun _ _ => some [⟨"5"⟩]
    getListingFee := some "1000"
    userExpires := fun _ _ => some "1699996400"
    send := fun _ => some ⟨true⟩ }

def demoState : State :=
  { listings := none
    listingsTransformed := some [("0xNFT", [("5", transform demoListing)])]
    ownedTokens := none }

/-! ## Predicates on calls and runs -/

/-- A decimal digit character. -/
def IsDec (c : Char) : Prop := 48 ≤ c.toNat ∧ c.toNat ≤ 57

/-- A call of the event-scan strategy: the `Transfer` query, a `tokenURI` read or a
metadata fetch. -/
def IsEventScanCall (c : Call) : Prop :=
  (∃ nft recipient, c = .getPastEvents nft recipient) ∨ (∃ nft tokenId, c = .tokenURI nft tokenId)
    ∨ (∃ uri, c = .fetch uri)

/-- The run `r` made the reads `pre`, submitted the single transaction `tx` from `account`
and, the receipt being `receipt`, went on with `refresh` on success; on a failed status it
made no further call and resolved normally, the state `s` unchanged. -/
def Dispatches (r : Run State) (pre : List Call) (tx : Send) (account : Option Address)
    (receipt : Tx) (refresh : Run State) (s : State) : Prop :=
  r.sends = [tx] ∧ tx.sender = account
    ∧ (receipt.status = true →
        r.trace = pre ++ .send tx :: refresh.trace ∧ r.result = refresh.result)
    ∧ (receipt.status = false → r.trace = pre ++ [.send tx] ∧ r.result = .ok s)

/-- A world in which every transaction is mined with a failed status. -/
def failWorld : World := { demoWorld with send := fun _ => some ⟨false⟩ }

/-- What C10 reads off an owned token: its id, its contract and its listing data. -/
def OwnedToken.key (tok : OwnedToken) : TokenId × Address × Option TransformedData :=
  (tok.tokenId, tok.nftContractAddress, tok.listingData)

/-- The key of a listing in the index. -/
def RawListing.key (l : RawListing) : Address × TokenId := (l.nftContract, l.tokenId)

/-- A world whose marketplace answers two listings with the same contract and token id. -/
def dupWorld : World :=
  { demoWorld with
    getAllListings := some [demoListing, { demoListing with pricePerDay := "250" }] }

@[simp] theorem Run.bind_eq {α β : Type} (m : Run α) (f : α → Run β) :
    (m >>= f) = Run.bind m f := rfl

@[simp] theorem Run.pure_eq {α : Type} (a : α) : (Pure.pure a : Run α) = Run.pure a := rfl

@[simp] theorem Run.sends_pure {α : Type} (a : α) : (Run.pure a).sends = [] := rfl

@[simp] theorem Run.sends_throw {α : Type} (e : Err) : (Run.throw e : Run α).sends = [] := rfl

theorem Run.sends_bind {α β : Type} (m : Run α) (f : α → Run β) :
    (Run.bind m f).sends =
      m.sends ++ (match m.result with
                  | .ok a => (f a).sends
                  | .error _ => []) := by
  unfold Run.bind Run.sends
  cases h : m.result <;> simp

theorem Run.sends_bind_nil {α β : Type} (m : Run α) (f : α → Run β)
    (hm : m.sends = []) (hf : ∀ a, (f a).sends = []) : (Run.bind m f).sends = [] := by
  rw [Run.sends_bind, hm]
  cases m.result <;> simp [hf]

theorem Run.sends_call {α : Type} (c : Call) (r : Option α) :
    (Run.call c r).sends = (Run.sendOf c).toList := by
  unfold Run.call Run.sends
  cases h : Run.sendOf c <;> simp [h]

theorem Run.sends_all {α : Type} (tasks : List (Run α))
    (h : ∀ t ∈ tasks, t.sends = []) : (Run.all tasks).sends = [] := by
  unfold Run.all Run.sends
  induction tasks with
  | nil => rfl
  | cons t ts ih =>
    have ht : t.sends = [] := h t (List.mem_cons_self _ _)
    have hts := ih fun u hu => h u (List.mem_cons_of_mem _ hu)
    unfold Run.sends at ht
    simp only [List.map_cons, List.flatten_cons, List.filterMap_append, ht, List.nil_append]
    exact hts

theorem sends_accounts0 (eth : Eth) : (accounts0 eth).sends = [] := by
  unfold accounts0
  cases eth.accounts <;> rfl

theorem sends_newContract (eth : Eth) : (newContract eth).sends = [] := by
  unfold newContract
  split <;> rfl

theorem sends_marketplaceMethods (eth : Eth) : (marketplaceMethods eth).sends = [] := by
  unfold marketplaceMethods
  split <;> rfl

theorem sends_fetchMetadata (w : World) (k : Nat) (uri : String) :
    (fetchMetadata w k uri).sends = [] := rfl

theorem sends_listingEntry (s : State) (a : Address) (t : TokenId) :
    (listingEntry s a t).sends = [] := by
  unfold listingEntry
  split
  · split <;> rfl
  · rfl

theorem sends_listingTask (eth : Eth) (w : World) (k : Nat) (l : RawListing) :
    (listingTask eth w k l).sends = [] := by
  unfold listingTask
  simp only [Run.bind_eq, Run.pure_eq]
  refine Run.sends_bind_nil _ _ (sends_newContract eth) fun _ => ?_
  refine Run.sends_bind_nil _ _ (by rw [Run.sends_call]; rfl) fun _ => ?_
  refine Run.sends_bind_nil _ _ (sends_fetchMetadata _ _ _) fun _ => ?_
  exact Run.sends_bind_nil _ _ (sends_accounts0 eth) fun _ => rfl

theorem sends_listingTasks (eth : Eth) (w : World) (k : Nat) (res : List RawListing) :
    ∀ t ∈ listingTasks eth w k res, t.sends = [] := by
  induction res generalizing k with
  | nil => intro t ht; cases ht
  | cons l rest ih =>
    intro t ht
    rcases List.mem_cons.mp ht with h | h
    · rw [h]; exact sends_listingTask eth w k l
    · exact ih (k + 1) t h

/-- A listing refresh submits no transaction. -/
theorem sends_updateListings (eth : Eth) (w : World) (s : State) :
    (updateListings eth w s).sends = [] := by
  unfold updateListings
  split
  · simp only [Run.bind_eq, Run.pure_eq]
    refine Run.sends_bind_nil _ _ (by rw [Run.sends_call]; rfl) fun res => ?_
    exact Run.sends_bind_nil _ _ (Run.sends_all _ (sends_listingTasks eth w 0 res)) fun _ => rfl
  · rfl

theorem sends_eventTasks (w : World) (a : Address) (index : ListingIndex) (k : Nat)
    (evs : List MintEvent) : ∀ t ∈ eventTasks w a index k evs, t.sends = [] := by
  induction evs generalizing k with
  | nil => intro t ht; cases ht
  | cons ev rest ih =>
    intro t ht
    rcases List.mem_cons.mp ht with h | h
    · rw [h]
      unfold eventTask
      simp only [Run.bind_eq, Run.pure_eq]
      refine Run.sends_bind_nil _ _ (by rw [Run.sends_call]; rfl) fun _ => ?_
      exact Run.sends_bind_nil _ _ (sends_fetchMetadata _ _ _) fun _ => rfl
    · exact ih (k + 1) t h

/-- An ownership refresh submits no transaction. -/
theorem sends_updateOwnedTokens (eth : Eth) (w : World) (s : State) :
    (updateOwnedTokens eth w s).sends = [] := by
  unfold updateOwnedTokens
  split
  · split
    · simp only [Run.bind_eq, Run.pure_eq]
      exact Run.sends_bind_nil _ _ (by rw [Run.sends_call]; rfl) fun _ => rfl
    · rfl
  · split
    · simp only [Run.bind_eq, Run.pure_eq]
      refine Run.sends_bind_nil _ _ (sends_accounts0 eth) fun _ => ?_
      refine Run.sends_bind_nil _ _ (by rw [Run.sends_call]; rfl) fun _ => ?_
      exact Run.sends_bind_nil _ _ (Run.sends_all _ (sends_eventTasks _ _ _ _ _)) fun _ => rfl
    · rfl

/-! ## Actions: the submitted transaction and what follows it -/

@[simp] theorem Run.pure_bind {α β : Type} (a : α) (f : α → Run β) :
    Run.bind (Run.pure a) f = f a := rfl

theorem Run.result_bind_ok {α β : Type} (m : Run α) (f : α → Run β) (a : α)
    (h : m.result = .ok a) : (Run.bind m f).result = (f a).result := by
  unfold Run.bind
  rw [h]

theorem Run.call_some_bind {α β : Type} (c : Call) (a : α) (f : α → Run β) :
    Run.bind (Run.call c (some a)) f = ⟨c :: (f a).trace, (f a).result⟩ := rfl

theorem sends_dispatch (w : World) (tx : Send) (refresh : Run State) (s : State)
    (h : refresh.sends = []) : (dispatch w tx refresh s).sends = [tx] := by
  unfold dispatch
  rw [Run.sends_bind, Run.sends_call]
  cases hs : w.send tx with
  | none => simp [Run.call, Run.sendOf]
  | some receipt =>
    cases hr : receipt.status <;> simp [Run.call, Run.sendOf, hr, h]

theorem dispatch_success (w : World) (tx : Send) (refresh : Run State) (s : State)
    (receipt : Tx) (hs : w.send tx = some receipt) (hr : receipt.status = true) :
    dispatch w tx refresh s = ⟨.send tx :: refresh.trace, refresh.result⟩ := by
  unfold dispatch
  rw [hs, Run.call_some_bind]
  simp [hr]

theorem dispatch_failure (w : World) (tx : Send) (refresh : Run State) (s : State)
    (receipt : Tx) (hs : w.send tx = some receipt) (hr : receipt.status = false) :
    dispatch w tx refresh s = ⟨[.send tx], .ok s⟩ := by
  unfold dispatch
  rw [hs, Run.call_some_bind]
  simp [hr, Run.pure]

theorem mint_eq (eth : Eth) (w w' : World) (s : State) (tokenUri : String)
    (nft : Address) (accounts : List Address)
    (hc : eth.rentableNftContract = some nft) (ha : eth.accounts = some accounts) :
    mint eth w w' s tokenUri
      = dispatch w (mintTx accounts tokenUri) (updateOwnedTokens eth w' s) s := by
  unfold mint dispatch mintTx accounts0
  simp only [hc, ha, Run.bind_eq, Run.pure_eq, Run.pure_bind]

theorem list_eq (eth : Eth) (w w' : World) (s : State) (a : Address) (t : TokenId)
    (price duration : Int) (accounts : List Address) (listingFee : String)
    (hm : eth.marketplaceContract = true) (ha : eth.accounts = some accounts)
    (hf : w.getListingFee = some listingFee) :
    list eth w w' s a t price duration
      = ⟨.getListingFee ::
          (dispatch w (listTx w.nowMs accounts a t price duration listingFee)
            (updateListings eth w' s) s).trace,
         (dispatch w (listTx w.nowMs accounts a t price duration listingFee)
            (updateListings eth w' s) s).result⟩ := by
  unfold list dispatch listTx accounts0 marketplaceMethods nowSeconds
  simp only [hm, ha, hf, Run.bind_eq, Run.pure_eq, Run.pure_bind, if_true, Run.call_some_bind]

theorem unlist_eq (eth : Eth) (w w' : World) (s : State) (a : Address) (t : TokenId)
    (accounts : List Address) (expiresStr : String) (index : ListingIndex)
    (td : TransformedData)
    (hw : eth.web3 = true) (hab : eth.artifacts = true)
    (hm : eth.marketplaceContract = true) (ha : eth.accounts = some accounts)
    (he : w.userExpires a t = some expiresStr)
    (hi : s.listingsTransformed = some index) (hl : lookup index a t = some td) :
    unlist eth w w' s a t
      = ⟨.userExpires a t ::
          (dispatch w (unlistTx w.nowMs accounts a t (parseInt expiresStr) td.pricePerDay)
            (updateListings eth w' s) s).trace,
         (dispatch w (unlistTx w.nowMs accounts a t (parseInt expiresStr) td.pricePerDay)
            (updateListings eth w' s) s).result⟩ := by
  unfold unlist dispatch unlistTx accounts0 marketplaceMethods newContract listingEntry
  simp only [hw, hab, hm, ha, he, hi, hl, Run.bind_eq, Run.pure_eq, Run.pure_bind, if_true,
    and_self, Run.call_some_bind]

theorem rent_eq (eth : Eth) (w w' : World) (s : State) (a : Address) (t : TokenId)
    (duration : Int) (accounts : List Address) (index : ListingIndex) (td : TransformedData)
    (hm : eth.marketplaceContract = true) (ha : eth.accounts = some accounts)
    (hi : s.listingsTransformed = some index) (hl : lookup index a t = some td) :
    rent eth w w' s a t duration
      = dispatch w (rentTx w.nowMs accounts a t duration td.pricePerDay)
          (updateListings eth w' s) s := by
  unfold rent dispatch rentTx accounts0 marketplaceMethods listingEntry
  simp only [hm, ha, hi, hl, Run.bind_eq, Run.pure_eq, Run.pure_bind, if_true]

theorem sends_cons_dispatch (c : Call) (hc : Run.sendOf c = none) (w : World) (tx : Send)
    (refresh : Run State) (s : State) (h : refresh.sends = []) :
    (Run.mk (c :: (dispatch w tx refresh s).trace) (dispatch w tx refresh s).result).sends
      = [tx] := by
  have := sends_dispatch w tx refresh s h
  unfold Run.sends at this ⊢
  simp only [List.filterMap_cons, hc]
  exact this

theorem mint_sends (eth : Eth) (w w' : World) (s : State) (tokenUri : String)
    (nft : Address) (accounts : List Address)
    (hc : eth.rentableNftContract = some nft) (ha : eth.accounts = some accounts) :
    (mint eth w w' s tokenUri).sends = [mintTx accounts tokenUri] := by
  rw [mint_eq eth w w' s tokenUri nft accounts hc ha]
  exact sends_dispatch _ _ _ _ (sends_updateOwnedTokens eth w' s)

theorem list_sends (eth : Eth) (w w' : World) (s : State) (a : Address) (t : TokenId)
    (price duration : Int) (accounts : List Address) (listingFee : String)
    (hm : eth.marketplaceContract = true) (ha : eth.accounts = some accounts)
    (hf : w.getListingFee = some listingFee) :
    (list eth w w' s a t price duration).sends
      = [listTx w.nowMs accounts a t price duration listingFee] := by
  rw [list_eq eth w w' s a t price duration accounts listingFee hm ha hf]
  exact sends_cons_dispatch Call.getListingFee rfl _ _ _ _ (sends_updateListings eth w' s)

theorem unlist_sends (eth : Eth) (w w' : World) (s : State) (a : Address) (t : TokenId)
    (accounts : List Address) (expiresStr : String) (index : ListingIndex)
    (td : TransformedData)
    (hw : eth.web3 = true) (hab : eth.artifacts = true)
    (hm : eth.marketplaceContract = true) (ha : eth.accounts = some accounts)
    (he : w.userExpires a t = some expiresStr)
    (hi : s.listingsTransformed = some index) (hl : lookup index a t = some td) :
    (unlist eth w w' s a t).sends
      = [unlistTx w.nowMs accounts a t (parseInt expiresStr) td.pricePerDay] := by
  rw [unlist_eq eth w w' s a t accounts expiresStr index td hw hab hm ha he hi hl]
  exact sends_cons_dispatch (Call.userExpires a t) rfl _ _ _ _ (sends_updateListings eth w' s)

theorem rent_sends (eth : Eth) (w w' : World) (s : State) (a : Address) (t : TokenId)
    (duration : Int) (accounts : List Address) (index : ListingIndex) (td : TransformedData)
    (hm : eth.marketplaceContract = true) (ha : eth.accounts = some accounts)
    (hi : s.listingsTransformed = some index) (hl : lookup index a t = some td) :
    (rent eth w w' s a t duration).sends
      = [rentTx w.nowMs accounts a t duration td.pricePerDay] := by
  rw [rent_eq eth w w' s a t duration accounts index td hm ha hi hl]
  exact sends_dispatch _ _ _ _ (sends_updateListings eth w' s)

/-! ## What an action submits, whatever the session -/

theorem unlistRefund_eq (nowMs : Nat) (e p : Int) :
    unlistRefund nowMs e p = ⌈((e : ℚ) - (nowMs : ℚ) / 1000) / 86400 + 1⌉ * p := by
  unfold unlistRefund
  have h : ((e : ℚ) - (nowMs : ℚ) / 1000) / 60 / 60 / 24
      = ((e : ℚ) - (nowMs : ℚ) / 1000) / 86400 := by
    rw [div_div, div_div]; norm_num
  rw [h]

theorem unlistValue_eq (nowMs : Nat) (e p : Int) :
    unlistValue nowMs (some e) (some p) = some (refundSpec ((nowMs : ℚ) / 1000) e p) := by
  simp only [unlistValue, Option.some_bind, Option.map_some', refundSpec, unlistRefund_eq]

theorem ceil_days_recent (now : ℚ) (e : Int) (h1 : now - 86400 < (e : ℚ)) (h2 : (e : ℚ) ≤ now) :
    ⌈((e : ℚ) - now) / 86400 + 1⌉ = 1 := by
  rw [Int.ceil_eq_iff]
  constructor
  · have : -1 < ((e : ℚ) - now) / 86400 := by
      rw [lt_div_iff₀ (by norm_num)]; linarith
    push_cast; linarith
  · have : ((e : ℚ) - now) / 86400 ≤ 0 := by
      apply div_nonpos_of_nonpos_of_nonneg <;> linarith
    push_cast; linarith

theorem ceil_days_old (now : ℚ) (e : Int) (h : (e : ℚ) + 86400 ≤ now) :
    ⌈((e : ℚ) - now) / 86400 + 1⌉ ≤ 0 := by
  rw [Int.ceil_le]
  have : ((e : ℚ) - now) / 86400 ≤ -1 := by
    rw [div_le_iff₀ (by norm_num)]; linarith
  push_cast; linarith

theorem refundSpec_old (now : ℚ) (e p : Int) (hp : 0 ≤ p) (h : (e : ℚ) + 86400 ≤ now) :
    refundSpec now e p = 0 := by
  unfold refundSpec
  exact max_eq_left (Int.mul_nonpos_of_nonpos_of_nonneg (ceil_days_old now e h) hp)

theorem refundSpec_recent (now : ℚ) (e p : Int) (hp : 0 ≤ p)
    (h1 : now - 86400 < (e : ℚ)) (h2 : (e : ℚ) ≤ now) : refundSpec now e p = p := by
  unfold refundSpec
  rw [ceil_days_recent now e h1 h2, one_mul]
  exact max_eq_right hp

/-- C2, as stated, fails: with the clock at 1700000000 s, an expiry one hour in the past
(1699996400 = now - 3600) and a price of 100 per day, `unlist` attaches the value 100,
not 0. -/
theorem unlist_hour_past_refund_not_zero :
    parseInt "1699996400" = some (1700000000 - 3600)
      ∧ nowSeconds demoWorld = 1700000000
      ∧ (unlist demoEth demoWorld demoWorld demoState "0xNFT" "5").sends
          = [⟨.unlistNFT "0xNFT" "5", some "0xA11CE", .num (some 100)⟩] := by
  have hx : parseInt "1699996400" = some 1699996400 := by decide
  have hn : nowSeconds demoWorld = 1700000000 := by
    unfold nowSeconds demoWorld; norm_num
  refine ⟨hx, hn, ?_⟩
  rw [unlist_sends demoEth demoWorld demoWorld demoState "0xNFT" "5" ["0xA11CE"] "1699996400"
    [("0xNFT", [("5", transform demoListing)])] (transform demoListing) rfl rfl rfl rfl rfl rfl
    (by decide)]
  have hp : (transform demoListing).pricePerDay = some 100 := by decide
  have hv : refundSpec ((demoWorld.nowMs : ℚ) / 1000) 1699996400 100 = 100 := by
    have := hn
    unfold nowSeconds at this
    rw [this]
    exact refundSpec_recent _ _ _ (by decide) (by norm_num) (by norm_num)
  simp only [unlistTx, hx, hp, unlistValue_eq, hv, List.head?_cons]

/-- C2, amended: for a non-negative price, `unlist` attaches the value 0 when the expiry
lies at least one day (86400 s) before the current time, and the value `pricePerDay`
when the expiry lies less than one day in the past (as for `expires = now - 3600`). -/
theorem unlist_refund_past_expiry (eth : Eth) (w w' : World) (s : State) (a : Address)
    (t : TokenId) (accounts : List Address) (expiresStr : String) (index : ListingIndex)
    (td : TransformedData) (expires pricePerDay : Int)
    (hw : eth.web3 = true) (hab : eth.artifacts = true)
    (hm : eth.marketplaceContract = true) (ha : eth.accounts = some accounts)
    (he : w.userExpires a t = some expiresStr) (hx : parseInt expiresStr = some expires)
    (hi : s.listingsTransformed = some index) (hl : lookup index a t = some td)
    (hp : td.pricePerDay = some pricePerDay) (h0 : 0 ≤ pricePerDay) :
    ((expires : ℚ) + 86400 ≤ nowSeconds w →
        (unlist eth w w' s a t).sends
          = [⟨.unlistNFT a t, accounts.head?, .num (some 0)⟩])
      ∧ (nowSeconds w - 86400 < (expires : ℚ) → (expires : ℚ) < nowSeconds w →
        (unlist eth w w' s a t).sends
          = [⟨.unlistNFT a t, accounts.head?, .num (some pricePerDay)⟩]) := by
  rw [unlist_sends eth w w' s a t accounts expiresStr index td hw hab hm ha he hi hl]
  simp only [unlistTx, hx, hp, unlistValue_eq]
  unfold nowSeconds
  constructor
  · intro h
    rw [refundSpec_old _ _ _ h0 h]
  · intro h1 h2
    rw [refundSpec_recent _ _ _ h0 h1 h2.le]

/-- The refund of C2 on the concrete session: 100 for the expiry one hour in the past, and
0 once the token has no renter (`userExpires` answers 0). -/
theorem unlist_refund_past_expiry_witness :
    (unlist demoEth demoWorld demoWorld demoState "0xNFT" "5").sends
        = [⟨.unlistNFT "0xNFT" "5", some "0xA11CE", .num (some 100)⟩]
      ∧ (unlist demoEth { demoWorld with userExpires := fun _ _ => some "0" } demoWorld
          demoState "0xNFT" "5").sends
        = [⟨.unlistNFT "0xNFT" "5", some "0xA11CE", .num (some 0)⟩] :=
  ⟨(unlist_refund_past_expiry demoEth demoWorld demoWorld demoState "0xNFT" "5" ["0xA11CE"]
      "1699996400" [("0xNFT", [("5", transform demoListing)])] (transform demoListing)
      1699996400 100 rfl rfl rfl rfl rfl (by decide) rfl (by decide) (by decide)
      (by decide)).2
      (by unfold nowSeconds demoWorld; norm_num) (by unfold nowSeconds demoWorld; norm_num),
   (unlist_refund_past_expiry demoEth { demoWorld with userExpires := fun _ _ => some "0" }
      demoWorld demoState "0xNFT" "5" ["0xA11CE"]
      "0" [("0xNFT", [("5", transform demoListing)])] (transform demoListing)
      0 100 rfl rfl rfl rfl rfl (by decide) rfl (by decide) (by decide)
      (by decide)).1
      (by unfold nowSeconds demoWorld; norm_num)⟩

theorem isDec_ne (c d : Char) (h : IsDec c) (hd : ¬ IsDec d) : c ≠ d := by
  intro e; exact hd (e ▸ h)

theorem Run.trace_bind_forall {α β : Type} (P : Call → Prop) (m : Run α) (f : α → Run β)
    (hm : ∀ c ∈ m.trace, P c) (hf : ∀ a, ∀ c ∈ (f a).trace, P c) :
    ∀ c ∈ (Run.bind m f).trace, P c := by
  intro c hc
  unfold Run.bind at hc
  cases h : m.result with
  | error e => rw [h] at hc; exact hm c hc
  | ok a =>
    rw [h] at hc
    rcases List.mem_append.mp hc with h1 | h1
    · exact hm c h1
    · exact hf a c h1

theorem Run.trace_all_forall {α : Type} (P : Call → Prop) (tasks : List (Run α))
    (h : ∀ t ∈ tasks, ∀ c ∈ t.trace, P c) : ∀ c ∈ (Run.all tasks).trace, P c := by
  intro c hc
  unfold Run.all at hc
  simp only [List.mem_flatten, List.mem_map] at hc
  obtain ⟨l, ⟨t, ht, rfl⟩, hcl⟩ := hc
  exact h t ht c hcl

theorem trace_eventTasks (w : World) (a : Address) (index : ListingIndex) (k : Nat)
    (evs : List MintEvent) :
    ∀ t ∈ eventTasks w a index k evs, ∀ c ∈ t.trace, IsEventScanCall c := by
  induction evs generalizing k with
  | nil => intro t ht; cases ht
  | cons ev rest ih =>
    intro t ht
    rcases List.mem_cons.mp ht with h | h
    · rw [h]
      unfold eventTask
      simp only [Run.bind_eq, Run.pure_eq]
      refine Run.trace_bind_forall _ _ _ ?_ fun uri => ?_
      · intro c hc
        simp only [Run.call, List.mem_singleton] at hc
        exact Or.inr (Or.inl ⟨_, _, hc⟩)
      · refine Run.trace_bind_forall _ _ _ ?_ fun _ => ?_
        · intro c hc
          simp only [fetchMetadata, List.mem_singleton] at hc
          exact Or.inr (Or.inr ⟨_, hc⟩)
        · intro c hc; cases hc
    · exact ih (k + 1) t h

/-- C8: one call of `updateOwnedTokens` follows at most one sourcing strategy: with the
indexing service active every external call it makes is a query of that service (so the
`Transfer` events are never queried), with the service inactive every external call
belongs to the event scan (so the service is never queried); and with a null listing index
it makes no external call and resolves with the state unchanged. -/
theorem updateOwnedTokens_single_strategy (eth : Eth) (w : World) (s : State) :
    (w.infuraActive = true →
        ∀ c ∈ (updateOwnedTokens eth w s).trace, ∃ account, c = .getOwnedRentableNfts account)
      ∧ (w.infuraActive = false →
        ∀ c ∈ (updateOwnedTokens eth w s).trace,
          IsEventScanCall c ∧ ∀ account, c ≠ .getOwnedRentableNfts account)
      ∧ (s.listingsTransformed = none → updateOwnedTokens eth w s = ⟨[], .ok s⟩) := by
  refine ⟨?_, ?_, ?_⟩
  · intro hact
    unfold updateOwnedTokens
    rw [if_pos hact]
    split
    · simp only [Run.bind_eq, Run.pure_eq]
      refine Run.trace_bind_forall _ _ _ ?_ fun _ => ?_
      · intro c hc
        simp only [Run.call, List.mem_singleton] at hc
        exact ⟨_, hc⟩
      · intro c hc; cases hc
    · intro c hc; cases hc
  · intro hact
    have key : ∀ c ∈ (updateOwnedTokens eth w s).trace, IsEventScanCall c := by
      unfold updateOwnedTokens
      rw [if_neg (by simp [hact])]
      split
      · simp only [Run.bind_eq, Run.pure_eq]
        refine Run.trace_bind_forall _ _ _ ?_ fun recipient => ?_
        · intro c hc
          have h0 : (accounts0 eth).trace = [] := by
            unfold accounts0
            cases eth.accounts <;> rfl
          rw [h0] at hc
          cases hc
        · refine Run.trace_bind_forall _ _ _ ?_ fun evs => ?_
          · intro c hc
            simp only [Run.call, List.mem_singleton] at hc
            exact Or.inl ⟨_, _, hc⟩
          · refine Run.trace_bind_forall _ _ _ ?_ fun _ => ?_
            · exact Run.trace_all_forall _ _ (trace_eventTasks _ _ _ _ _)
            · intro c hc; cases hc
      · intro c hc; cases hc
    intro c hc
    refine ⟨key c hc, ?_⟩
    intro account hacc
    rcases key c hc with ⟨_, _, h⟩ | ⟨_, _, h⟩ | ⟨_, h⟩ <;> rw [h] at hacc <;> cases hacc
  · intro hnone
    unfold updateOwnedTokens
    rw [hnone]
    cases w.infuraActive <;> cases eth.accounts <;> cases eth.rentableNftContract <;> rfl

/-- On the concrete session (service inactive): the calls of the event scan; and the no-op
on a null listing index. -/
theorem updateOwnedTokens_single_strategy_witness :
    (∀ c ∈ (updateOwnedTokens demoEth demoWorld demoState).trace,
        IsEventScanCall c ∧ ∀ account, c ≠ .getOwnedRentableNfts account)
      ∧ updateOwnedTokens demoEth demoWorld ⟨none, none, none⟩ = ⟨[], .ok ⟨none, none, none⟩⟩ :=
  ⟨(updateOwnedTokens_single_strategy demoEth demoWorld demoState).2.1 rfl,
   (updateOwnedTokens_single_strategy demoEth demoWorld ⟨none, none, none⟩).2.2 rfl⟩

/-! ## Actions: refresh if and only if the receipt reports success -/

/-- C9, as stated, fails: a transaction whose receipt reports failure is not surfaced:
`mint` resolves normally, exactly as it does when nothing had to be refreshed. -/
theorem mint_failed_status_resolves :
    (failWorld.send (mintTx ["0xA11CE"] "ipfs://new")).map Tx.status = some false
      ∧ (mint demoEth failWorld demoWorld demoState "ipfs://new").result = .ok demoState
      ∧ (mint demoEth failWorld demoWorld demoState "ipfs://new").trace
          = [.send (mintTx ["0xA11CE"] "ipfs://new")] :=
  ⟨rfl, rfl, rfl⟩

/-- C9, amended: in a connected session each of `mint`, `list`, `unlist` and `rent` submits
exactly one transaction, from `accounts[0]`; when the receipt reports success it then runs
its refresh (`updateOwnedTokens` for `mint`, `updateListings` for the others) and resolves
as the refresh does; when the receipt reports failure it makes no further call, leaves
the state unchanged and resolves normally, without an error. -/
theorem actions_refresh_iff_status (eth : Eth) (w w' : World) (s : State)
    (accounts : List Address) (receipt : Tx) (ha : eth.accounts = some accounts) :
    (∀ nft tokenUri, eth.rentableNftContract = some nft →
        w.send (mintTx accounts tokenUri) = some receipt →
        Dispatches (mint eth w w' s tokenUri) [] (mintTx accounts tokenUri) accounts.head?
          receipt (updateOwnedTokens eth w' s) s)
      ∧ (∀ a t price duration listingFee, eth.marketplaceContract = true →
        w.getListingFee = some listingFee →
        w.send (listTx w.nowMs accounts a t price duration listingFee) = some receipt →
        Dispatches (list eth w w' s a t price duration) [.getListingFee]
          (listTx w.nowMs accounts a t price duration listingFee) accounts.head?
          receipt (updateListings eth w' s) s)
      ∧ (∀ a t expiresStr index td, eth.web3 = true → eth.artifacts = true →
        eth.marketplaceContract = true → w.userExpires a t = some expiresStr →
        s.listingsTransformed = some index → lookup index a t = some td →
        w.send (unlistTx w.nowMs accounts a t (parseInt expiresStr) td.pricePerDay)
          = some receipt →
        Dispatches (unlist eth w w' s a t) [.userExpires a t]
          (unlistTx w.nowMs accounts a t (parseInt expiresStr) td.pricePerDay) accounts.head?
          receipt (updateListings eth w' s) s)
      ∧ (∀ a t duration index td, eth.marketplaceContract = true →
        s.listingsTransformed = some index → lookup index a t = some td →
        w.send (rentTx w.nowMs accounts a t duration td.pricePerDay) = some receipt →
        Dispatches (rent eth w w' s a t duration) []
          (rentTx w.nowMs accounts a t duration td.pricePerDay) accounts.head?
          receipt (updateListings eth w' s) s) := by
  refine ⟨?_, ?_, ?_, ?_⟩
  · intro nft tokenUri hc hs
    refine ⟨mint_sends eth w w' s tokenUri nft accounts hc ha, rfl, ?_, ?_⟩
    · intro hr
      rw [mint_eq eth w w' s tokenUri nft accounts hc ha, dispatch_success w _ _ s receipt hs hr]
      exact ⟨rfl, rfl⟩
    · intro hr
      rw [mint_eq eth w w' s tokenUri nft accounts hc ha, dispatch_failure w _ _ s receipt hs hr]
      exact ⟨rfl, rfl⟩
  · intro a t price duration fee hm hf hs
    refine ⟨list_sends eth w w' s a t price duration accounts fee hm ha hf, rfl, ?_, ?_⟩
    · intro hr
      rw [list_eq eth w w' s a t price duration accounts fee hm ha hf,
        dispatch_success w _ _ s receipt hs hr]
      exact ⟨rfl, rfl⟩
    · intro hr
      rw [list_eq eth w w' s a t price duration accounts fee hm ha hf,
        dispatch_failure w _ _ s receipt hs hr]
      exact ⟨rfl, rfl⟩
  · intro a t expiresStr index td hw hab hm he hi hl hs
    refine ⟨unlist_sends eth w w' s a t accounts expiresStr index td hw hab hm ha he hi hl,
      rfl, ?_, ?_⟩
    · intro hr
      rw [unlist_eq eth w w' s a t accounts expiresStr index td hw hab hm ha he hi hl,
        dispatch_success w _ _ s receipt hs hr]
      exact ⟨rfl, rfl⟩
    · intro hr
      rw [unlist_eq eth w w' s a t accounts expiresStr index td hw hab hm ha he hi hl,
        dispatch_failure w _ _ s receipt hs hr]
      exact ⟨rfl, rfl⟩
  · intro a t duration index td hm hi hl hs
    refine ⟨rent_sends eth w w' s a t duration accounts index td hm ha hi hl, rfl, ?_, ?_⟩
    · intro hr
      rw [rent_eq eth w w' s a t duration accounts index td hm ha hi hl,
        dispatch_success w _ _ s receipt hs hr]
      exact ⟨rfl, rfl⟩
    · intro hr
      rw [rent_eq eth w w' s a t duration accounts index td hm ha hi hl,
        dispatch_failure w _ _ s receipt hs hr]
      exact ⟨rfl, rfl⟩

/-- On the concrete session: a successful `mint` and a failed `list`, `unlist` and `rent`. -/
theorem actions_refresh_iff_status_witness :
    Dispatches (mint demoEth demoWorld demoWorld demoState "ipfs://new") []
        (mintTx ["0xA11CE"] "ipfs://new") (some "0xA11CE") ⟨true⟩
        (updateOwnedTokens demoEth demoWorld demoState) demoState
      ∧ Dispatches (list demoEth failWorld demoWorld demoState "0xNFT" "5" 100 86400)
        [.getListingFee] (listTx failWorld.nowMs ["0xA11CE"] "0xNFT" "5" 100 86400 "1000")
        (some "0xA11CE") ⟨false⟩ (updateListings demoEth demoWorld demoState) demoState
      ∧ Dispatches (unlist demoEth failWorld demoWorld demoState "0xNFT" "5")
        [.userExpires "0xNFT" "5"]
        (unlistTx failWorld.nowMs ["0xA11CE"] "0xNFT" "5" (parseInt "1699996400")
          (transform demoListing).pricePerDay)
        (some "0xA11CE") ⟨false⟩ (updateListings demoEth demoWorld demoState) demoState
      ∧ Dispatches (rent demoEth failWorld demoWorld demoState "0xNFT" "5" 86400) []
        (rentTx failWorld.nowMs ["0xA11CE"] "0xNFT" "5" 86400
          (transform demoListing).pricePerDay)
        (some "0xA11CE") ⟨false⟩ (updateListings demoEth demoWorld demoState) demoState :=
  ⟨(actions_refresh_iff_status demoEth demoWorld demoWorld demoState ["0xA11CE"] ⟨true⟩
      rfl).1 "0xNFT" "ipfs://new" rfl rfl,
   (actions_refresh_iff_status demoEth failWorld demoWorld demoState ["0xA11CE"] ⟨false⟩
      rfl).2.1 "0xNFT" "5" 100 86400 "1000" rfl rfl rfl,
   (actions_refresh_iff_status demoEth failWorld demoWorld demoState ["0xA11CE"] ⟨false⟩
      rfl).2.2.1 "0xNFT" "5" "1699996400" [("0xNFT", [("5", transform demoListing)])]
      (transform demoListing) rfl rfl rfl rfl rfl (by decide) rfl,
   (actions_refresh_iff_status demoEth failWorld demoWorld demoState ["0xA11CE"] ⟨false⟩
      rfl).2.2.2 "0xNFT" "5" 86400 [("0xNFT", [("5", transform demoListing)])]
      (transform demoListing) rfl rfl (by decide) rfl⟩

/-! ## Ownership reconciler: the event scan -/

theorem collect_eventTasks (w : World) (nft : Address) (index : ListingIndex) (k : Nat)
    (evs : List MintEvent) (huri : ∀ ev ∈ evs, (w.tokenURI nft ev.tokenId).isSome = true) :
    ∃ tokens, Run.collect (eventTasks w nft index k evs) = .ok tokens
      ∧ tokens.map OwnedToken.key
          = evs.map fun ev => (ev.tokenId, nft, lookup index nft ev.tokenId) := by
  induction evs generalizing k with
  | nil => exact ⟨[], rfl, rfl⟩
  | cons ev rest ih =>
    obtain ⟨tokens, hc, hm⟩ := ih (k + 1) fun e he => huri e (List.mem_cons_of_mem _ he)
    obtain ⟨uri, hu⟩ := Option.isSome_iff_exists.mp (huri ev (List.mem_cons_self _ _))
    refine ⟨⟨nft, ev.tokenId, some uri, w.fetchJson k (w.getIpfsGatewayUri uri),
      lookup index nft ev.tokenId⟩ :: tokens, ?_, ?_⟩
    · simp only [eventTasks, Run.collect, hc, eventTask, hu, Run.bind_eq, Run.pure_eq, Run.bind,
        Run.call, fetchMetadata, Run.pure]
    · simp only [List.map_cons, hm, OwnedToken.key]

/-- C10, as stated, fails: with the service inactive, a listing index present and one mint
event (token 5), a `tokenURI` read that reverts (the token has since been burned) makes
`updateOwnedTokens` reject; no owned token is stored. -/
theorem updateOwnedTokens_burned_token_rejects :
    (updateOwnedTokens demoEth { demoWorld with tokenURI := fun _ _ => none } demoState).result
      = .error .rejected :=
  rfl

/-- C10, amended: with the service inactive, a listing index present and every `tokenURI`
read answering, `updateOwnedTokens` stores exactly one owned token per mint event, in
event order, with the event's token id, the address of the rentable-token contract and
the index entry of (contract, token id) as listing data, absent when there is none. -/
theorem updateOwnedTokens_event_scan (eth : Eth) (w : World) (s : State) (nft : Address)
    (accounts : List Address) (index : ListingIndex) (mintEvents : List MintEvent)
    (hinf : w.infuraActive = false) (hc : eth.rentableNftContract = some nft)
    (ha : eth.accounts = some accounts) (hi : s.listingsTransformed = some index)
    (hev : w.getPastEvents nft accounts.head? = some mintEvents)
    (huri : ∀ ev ∈ mintEvents, (w.tokenURI nft ev.tokenId).isSome = true) :
    ∃ tokens, (updateOwnedTokens eth w s).result = .ok { s with ownedTokens := some tokens }
      ∧ tokens.map OwnedToken.key
          = mintEvents.map fun ev => (ev.tokenId, nft, lookup index nft ev.tokenId) := by
  obtain ⟨tokens, hcol, hmap⟩ := collect_eventTasks w nft index 0 mintEvents huri
  refine ⟨tokens, ?_, hmap⟩
  unfold updateOwnedTokens
  rw [if_neg (by simp [hinf])]
  simp only [hc, hi, Run.bind_eq, Run.pure_eq]
  rw [Run.result_bind_ok _ _ accounts.head? (by unfold accounts0; rw [ha]; rfl),
    Run.result_bind_ok _ _ mintEvents (by rw [hev]; rfl),
    Run.result_bind_ok _ _ tokens hcol]
  rfl

/-- The scenario of C10: one mint event, for token 5, gives exactly one owned token, for
token 5, with the listing data of (contract, 5). -/
theorem updateOwnedTokens_event_scan_witness :
    ∃ tokens, (updateOwnedTokens demoEth demoWorld demoState).result
        = .ok { demoState with ownedTokens := some tokens }
      ∧ tokens.map OwnedToken.key = [("5", "0xNFT", some (transform demoListing))] :=
  updateOwnedTokens_event_scan demoEth demoWorld demoState "0xNFT" ["0xA11CE"]
    [("0xNFT", [("5", transform demoListing)])] [⟨"5"⟩] rfl rfl rfl rfl rfl (by decide)

/-! ## The listing index as a map -/

theorem lookup_cons_self {β : Type} (k : String) (v : β) (rest : List (String × β)) :
    List.lookup k ((k, v) :: rest) = some v := by
  simp [List.lookup]

theorem lookup_cons_ne {β : Type} (k k' : String) (v : β) (rest : List (String × β))
    (h : k' ≠ k) : List.lookup k' ((k, v) :: rest) = List.lookup k' rest := by
  have hb : (k' == k) = false := by simpa using h
  simp only [List.lookup, hb]

theorem lookup_assign {β : Type} (k k' : String) (v : β) (xs : List (String × β)) :
    (assign k v xs).lookup k' = if k' = k then some v else xs.lookup k' := by
  induction xs with
  | nil =>
    by_cases h : k' = k
    · subst h; simp only [assign, lookup_cons_self, if_true]
    · simp only [assign, lookup_cons_ne _ _ _ _ h, if_neg h]
  | cons p rest ih =>
    obtain ⟨x, y⟩ := p
    by_cases hx : x = k
    · subst hx
      by_cases h : k' = x
      · subst h; simp only [assign, if_true, lookup_cons_self]
      · simp only [assign, if_true, lookup_cons_ne _ _ _ _ h, if_neg h]
    · by_cases h2 : k' = x
      · subst h2
        simp only [assign, if_neg hx, lookup_cons_self]
      · simp only [assign, if_neg hx, lookup_cons_ne _ _ _ _ h2, ih]

theorem length_assign_of_lookup_none {β : Type} (k : String) (v : β) (xs : List (String × β))
    (h : xs.lookup k = none) : (assign k v xs).length = xs.length + 1 := by
  induction xs with
  | nil => rfl
  | cons p rest ih =>
    obtain ⟨x, y⟩ := p
    by_cases hx : x = k
    · subst hx
      rw [lookup_cons_self] at h
      cases h
    · have hne : k ≠ x := fun e => hx e.symm
      rw [lookup_cons_ne _ _ _ _ hne] at h
      simp only [assign, if_neg hx, List.length_cons, ih h]

theorem entryCount_assign_none (a : Address) (inner : List (TokenId × TransformedData))
    (index : ListingIndex) (h : index.lookup a = none) :
    entryCount (assign a inner index) = entryCount index + inner.length := by
  induction index with
  | nil => simp [assign, entryCount]
  | cons p rest ih =>
    obtain ⟨x, y⟩ := p
    by_cases hx : x = a
    · subst hx
      rw [lookup_cons_self] at h
      cases h
    · have hne : a ≠ x := fun e => hx e.symm
      rw [lookup_cons_ne _ _ _ _ hne] at h
      have := ih h
      simp only [entryCount] at this ⊢
      simp only [assign, if_neg hx, List.map_cons, List.sum_cons, this]
      omega

theorem entryCount_assign_some (a : Address) (inner inner' : List (TokenId × TransformedData))
    (index : ListingIndex) (h : index.lookup a = some inner) :
    entryCount (assign a inner' index) + inner.length = entryCount index + inner'.length := by
  induction index with
  | nil => cases h
  | cons p rest ih =>
    obtain ⟨x, y⟩ := p
    by_cases hx : x = a
    · subst hx
      rw [lookup_cons_self] at h
      injection h with hy
      subst hy
      simp only [entryCount, assign, if_true, List.map_cons, List.sum_cons]
      omega
    · have hne : a ≠ x := fun e => hx e.symm
      rw [lookup_cons_ne _ _ _ _ hne] at h
      have := ih h
      simp only [entryCount] at this ⊢
      simp only [assign, if_neg hx, List.map_cons, List.sum_cons]
      omega

theorem lookup_indexPut (index : ListingIndex) (l : RawListing) (a : Address) (t : TokenId) :
    lookup (indexPut index l) a t
      = if a = l.nftContract ∧ t = l.tokenId then some (transform l) else lookup index a t := by
  unfold lookup indexPut
  cases h : index.lookup l.nftContract with
  | none =>
    simp only [lookup_assign]
    by_cases ha : a = l.nftContract
    · subst ha
      by_cases ht : t = l.tokenId
      · subst ht
        simp only [if_true, and_self, Option.some_bind, lookup_cons_self]
      · have hnil : List.lookup t [(l.tokenId, transform l)] = none := by
          rw [lookup_cons_ne _ _ _ _ ht]; rfl
        simp only [if_true, true_and, if_neg ht, Option.some_bind, hnil, h, Option.none_bind]
    · have hn : ¬ (a = l.nftContract ∧ t = l.tokenId) := fun e => ha e.1
      simp only [if_neg ha, if_neg hn]
  | some inner =>
    simp only [lookup_assign]
    by_cases ha : a = l.nftContract
    · subst ha
      by_cases ht : t = l.tokenId
      · subst ht
        simp only [if_true, and_self, Option.some_bind, lookup_assign]
      · simp only [if_true, true_and, if_neg ht, Option.some_bind, lookup_assign, h]
    · have hn : ¬ (a = l.nftContract ∧ t = l.tokenId) := fun e => ha e.1
      simp only [if_neg ha, if_neg hn]

theorem entryCount_indexPut (index : ListingIndex) (l : RawListing)
    (h : lookup index l.nftContract l.tokenId = none) :
    entryCount (indexPut index l) = entryCount index + 1 := by
  unfold indexPut
  cases hc : index.lookup l.nftContract with
  | none =>
    simp only
    rw [entryCount_assign_none _ _ _ hc]
    rfl
  | some inner =>
    simp only
    have hin : inner.lookup l.tokenId = none := by
      simpa [lookup, hc] using h
    have h1 := entryCount_assign_some l.nftContract inner
      (assign l.tokenId (transform l) inner) index hc
    rw [length_assign_of_lookup_none _ _ _ hin] at h1
    omega

theorem entryCount_foldl (ls : List RawListing) : ∀ (index : ListingIndex),
    (ls.map RawListing.key).Nodup →
    (∀ l ∈ ls, lookup index l.nftContract l.tokenId = none) →
    entryCount (ls.foldl indexPut index) = entryCount index + ls.length := by
  induction ls with
  | nil => intro index _ _; rfl
  | cons l rest ih =>
    intro index hnd hfresh
    rw [List.map_cons, List.nodup_cons] at hnd
    rw [List.foldl_cons, ih (indexPut index l) hnd.2, entryCount_indexPut index l
      (hfresh l (List.mem_cons_self _ _)), List.length_cons]
    · omega
    · intro l' hl'
      rw [lookup_indexPut]
      have hne : ¬ (l'.nftContract = l.nftContract ∧ l'.tokenId = l.tokenId) := by
        rintro ⟨h1, h2⟩
        apply hnd.1
        have : l.key = l'.key := by
          unfold RawListing.key; rw [h1, h2]
        rw [this]
        exact List.mem_map_of_mem _ hl'
      rw [if_neg hne]
      exact hfresh l' (List.mem_cons_of_mem _ hl')

/-! ## Listing reconciler: what a refresh stores -/

theorem listingTask_eq (eth : Eth) (w : World) (k : Nat) (l : RawListing)
    (accounts : List Address) (uri : String)
    (hw : eth.web3 = true) (hab : eth.artifacts = true) (ha : eth.accounts = some accounts)
    (hu : w.tokenURI l.nftContract l.tokenId = some uri) :
    listingTask eth w k l
      = ⟨[.tokenURI l.nftContract l.tokenId, .fetch (w.getIpfsGatewayUri uri)],
          .ok (listingExtended l uri (w.fetchJson k (w.getIpfsGatewayUri uri)) accounts.head?)⟩ := by
  unfold listingTask newContract accounts0 fetchMetadata
  simp only [hw, hab, ha, hu, Run.bind_eq, Run.pure_eq, and_self, if_true, Run.pure_bind,
    Run.call_some_bind]
  rfl

theorem collect_listingTasks (eth : Eth) (w : World) (accounts : List Address)
    (hw : eth.web3 = true) (hab : eth.artifacts = true) (ha : eth.accounts = some accounts)
    (res : List RawListing) :
    ∀ k, (∀ l ∈ res, (w.tokenURI l.nftContract l.tokenId).isSome = true) →
    ∃ ls, Run.collect (listingTasks eth w k res) = .ok ls ∧ ls.length = res.length
      ∧ ∀ i l, res[i]? = some l →
          ∃ uri, w.tokenURI l.nftContract l.tokenId = some uri
            ∧ ls[i]? = some (listingExtended l uri
                (w.fetchJson (k + i) (w.getIpfsGatewayUri uri)) accounts.head?) := by
  induction res with
  | nil =>
    intro k _
    exact ⟨[], rfl, rfl, fun i l h => by simp at h⟩
  | cons l0 rest ih =>
    intro k huri
    obtain ⟨ls, hc, hlen, hget⟩ := ih (k + 1) fun l hl => huri l (List.mem_cons_of_mem _ hl)
    obtain ⟨uri, hu⟩ := Option.isSome_iff_exists.mp (huri l0 (List.mem_cons_self _ _))
    refine ⟨listingExtended l0 uri (w.fetchJson k (w.getIpfsGatewayUri uri)) accounts.head?
      :: ls, ?_, ?_, ?_⟩
    · simp only [listingTasks, Run.collect, hc, listingTask_eq eth w k l0 accounts uri hw hab ha hu]
    · simp only [List.length_cons, hlen]
    · intro i l hl
      cases i with
      | zero =>
        simp only [List.getElem?_cons_zero, Option.some.injEq] at hl
        subst hl
        exact ⟨uri, hu, by simp⟩
      | succ j =>
        simp only [List.getElem?_cons_succ] at hl
        obtain ⟨uri', hu', hj⟩ := hget j l hl
        refine ⟨uri', hu', ?_⟩
        simp only [List.getElem?_cons_succ, hj]
        have : k + 1 + j = k + (j + 1) := by omega
        rw [this]

theorem updateListings_result (eth : Eth) (w : World) (s : State) (res : List RawListing)
    (ls : List ListingExtended) (hm : eth.marketplaceContract = true)
    (hres : w.getAllListings = some res)
    (hc : Run.collect (listingTasks eth w 0 res) = .ok ls) :
    (updateListings eth w s).result
      = .ok { s with
          listings := some ls
          listingsTransformed := some ((w.settleOrder res).foldl indexPut []) } := by
  unfold updateListings
  rw [if_pos hm]
  simp only [Run.bind_eq, Run.pure_eq]
  rw [Run.result_bind_ok _ _ res (by rw [hres]; rfl), Run.result_bind_ok _ _ ls hc]
  rfl

/-- C1, as stated, fails: for two raw listings with the same contract address and token
id the stored listings array has length 2 while the stored index has a single entry. -/
theorem updateListings_duplicate_key_count :
    ∃ ls index, (updateListings demoEth dupWorld demoState).result
        = .ok ⟨some ls, some index, none⟩
      ∧ ls.length = 2 ∧ entryCount index = 1 :=
  ⟨_, _, rfl, rfl, rfl⟩

/-- C1, amended: in a connected session, for every list of `N >= 0` raw listings with
pairwise distinct (contract address, token id) answered by `getAllListings`, every
`tokenURI` read answering, `updateListings` stores a listings array of length `N` and an
index whose entries, summed over all contract addresses, number `N`. -/
theorem updateListings_counts (eth : Eth) (w : World) (s : State) (accounts : List Address)
    (res : List RawListing)
    (hm : eth.marketplaceContract = true) (hw : eth.web3 = true) (hab : eth.artifacts = true)
    (ha : eth.accounts = some accounts) (hres : w.getAllListings = some res)
    (huri : ∀ l ∈ res, (w.tokenURI l.nftContract l.tokenId).isSome = true)
    (hperm : (w.settleOrder res).Perm res)
    (hkeys : (res.map RawListing.key).Nodup) :
    ∃ ls index, (updateListings eth w s).result
        = .ok { s with listings := some ls, listingsTransformed := some index }
      ∧ ls.length = res.length ∧ entryCount index = res.length := by
  obtain ⟨ls, hc, hlen, _⟩ := collect_listingTasks eth w accounts hw hab ha res 0 huri
  refine ⟨ls, _, updateListings_result eth w s res ls hm hres hc, hlen, ?_⟩
  have hnd : ((w.settleOrder res).map RawListing.key).Nodup :=
    (hperm.map RawListing.key).nodup_iff.mpr hkeys
  rw [entryCount_foldl _ [] hnd (fun _ _ => rfl), hperm.length_eq]
  simp [entryCount]

/-- On the concrete session: one listing, one stored listing, one index entry. -/
theorem updateListings_counts_witness :
    ∃ ls index, (updateListings demoEth demoWorld demoState).result
        = .ok { demoState with listings := some ls, listingsTransformed := some index }
      ∧ ls.length = 1 ∧ entryCount index = 1 :=
  updateListings_counts demoEth demoWorld demoState ["0xA11CE"] [demoListing] rfl rfl rfl rfl
    rfl (by decide) (List.Perm.refl _) (by decide)

end Marketplace
